import Mathlib

/-
  Verification of the tanmatsu-musicalkeyboard audio engine.

  Shallow embedding of the C sources:
    - the single-producer/single-consumer ring buffer shared between the
      MOD tracker task and the audio mixing task,
    - the MOD tracker timing arithmetic, row-effect processing and the
      module loader (modplayer_esp32.c),
    - the polyphonic voice pool with ADSR envelopes and the mixer
      normalization (the keyboard part of the sources).

  Machine integers are modelled as Nat/Int; the C float fields that the
  claims reason about (envelope levels, playback positions) are modelled
  as exact rationals, and the mixer normalization (which involves sqrt)
  over the reals.
-/

namespace MusicalKeyboard

/-! ## Ring buffer (modplayer_esp32.c, write_to_ring_buffer; main.c, audio_task) -/

/-- Capacity of the MOD ring buffer. MOD_BUFFER_SIZE is defined in the
modplayer header, documented in the repository as 2048. -/
def MOD_BUFFER_SIZE : ℕ := 2048

/-- State of the ring buffer: the backing array (modelled as a total map
from index to stored 16-bit sample value), the producer-owned write
position and the consumer-owned read position. -/
structure RingBuffer where
  buf : ℕ → ℤ
  write_pos : ℕ
  read_pos : ℕ

/-- Producer-side single-slot write: body of the inner loop of
write_to_ring_buffer. Computes the next write position modulo the
capacity; if it equals the read position the sample is dropped and
nothing changes, otherwise the sample is stored at the current write
position and the write position advances. Total: never blocks, never
reports an error. -/
def try_write (rb : RingBuffer) (s : ℤ) : RingBuffer :=
  let next := (rb.write_pos + 1) % MOD_BUFFER_SIZE
  if next = rb.read_pos then rb
  else { rb with buf := Function.update rb.buf rb.write_pos s, write_pos := next }

/-- Consumer-side read: the MOD mixing block of audio_task in main.c.
Returns no sample when read position equals write position, otherwise
returns the sample at the read position and advances the read position
modulo the capacity. Total: never blocks, never reports an error. -/
def try_read (rb : RingBuffer) : RingBuffer × Option ℤ :=
  if rb.read_pos = rb.write_pos then (rb, none)
  else ({ rb with read_pos := (rb.read_pos + 1) % MOD_BUFFER_SIZE }, some (rb.buf rb.read_pos))

/-! ## Tracker timing (modplayer_esp32.c, calculate_tick_samples and modplayer_task) -/

/-- MOD native playback rate in Hz (SAMPLE_RATE in modplayer_esp32.c). -/
def MOD_SAMPLE_RATE : ℕ := 22050

/-- Rows in one pattern. -/
def ROWS_PER_PATTERN : ℕ := 64

/-- Translation of calculate_tick_samples: samples per tick from the
tempo in BPM; C integer division on positive operands is floor
division. -/
def calculate_tick_samples (tempo : ℕ) : ℕ :=
  (2500 * MOD_SAMPLE_RATE) / (tempo * 1000)

/-- Sequencer timing state of modplayer_task (the local variables
position, row, current_tick, ticks_per_row, tempo, samples_per_tick). -/
structure TrackerTiming where
  position : ℕ
  row : ℕ
  current_tick : ℕ
  ticks_per_row : ℕ
  tempo : ℕ
  samples_per_tick : ℕ
  deriving DecidableEq

/-- Initial sequencer state as set up at the top of modplayer_task:
position 0, row 0, tick 0, ticks_per_row 5, tempo 125, samples_per_tick
computed from the tempo. -/
def initTrackerTiming : TrackerTiming :=
  { position := 0
    row := 0
    current_tick := 0
    ticks_per_row := 5
    tempo := 125
    samples_per_tick := calculate_tick_samples 125 }

/-- Translation of the per-channel effect scan in modplayer_task (the
loop over channels after process_row): effect 0xD forces the row to the
last row of the pattern, effect 0xF with parameter below 0x20 sets
ticks-per-row (ignoring parameter 0), effect 0xF with parameter at
least 0x20 sets the tempo and recomputes samples_per_tick. -/
def apply_channel_effect (st : TrackerTiming) (effect param : ℕ) : TrackerTiming :=
  if effect = 0xD then { st with row := ROWS_PER_PATTERN - 1 }
  else if effect = 0xF ∧ param ≤ 0x1F then
    (if 0 < param then { st with ticks_per_row := param } else st)
  else if effect = 0xF ∧ 0x20 ≤ param then
    { st with tempo := param, samples_per_tick := calculate_tick_samples param }
  else st

/-! ## Row processing (modplayer_esp32.c, process_row) -/

/-- One decoded pattern cell (the Note struct). -/
structure ModNote where
  sample : ℕ
  period : ℕ
  effect : ℕ
  param : ℕ
  deriving DecidableEq

/-- Per-channel playback state (the ChannelState struct). -/
structure ChannelState where
  period : ℕ
  sample_num : ℕ
  volume : ℕ
  sample_pos : ℕ
  sample_increment : ℕ
  effect : ℕ
  param : ℕ
  deriving DecidableEq

/-- Translation of the per-channel body of process_row. The float
computation of the sample increment (period_to_freq and the 16.16
fixed-point scaling) is abstracted by the parameter incr_of; the
default-volume table of the loaded module is abstracted by
sample_volume (index i gives samples[i].volume). A present sample
number switches the sample and resets volume to its default; a present
period (unless the portamento effect 0x3) resets the read position and
recomputes the increment; effect 0xC sets the volume only when the
parameter is at most 64. -/
def process_note_channel (sample_volume : ℕ → ℕ) (incr_of : ℕ → ℕ)
    (ch : ChannelState) (note : ModNote) : ChannelState :=
  let ch1 :=
    if 0 < note.sample then
      { ch with sample_num := note.sample, volume := sample_volume (note.sample - 1) }
    else ch
  let ch2 :=
    if note.period ≠ 0 ∧ note.effect ≠ 0x3 then
      { ch1 with period := note.period, sample_pos := 0,
                 sample_increment := incr_of note.period }
    else ch1
  let ch3 := { ch2 with effect := note.effect, param := note.param }
  if note.effect = 0xC ∧ note.param ≤ 64 then { ch3 with volume := note.param } else ch3

/-! ## Module loader (modplayer_esp32.c, load_mod_embedded)

The loader walks a byte pointer over the embedded blob. It performs no
bounds check whatsoever against the blob length (the data_len parameter
of the C function is never used) and returns failure only when malloc
fails (allocation is outside the modelled state). A read beyond the end
of the blob is modelled by read_u8 returning 0 for an out-of-range
index, standing for whatever bytes follow the blob in memory. -/

/-- One byte of the blob; out-of-range reads yield an arbitrary value
(modelled as 0). -/
def read_u8 (d : List ℕ) (i : ℕ) : ℕ := d.getD i 0

/-- Translation of read_big_endian_16. -/
def read_be16 (d : List ℕ) (i : ℕ) : ℕ := read_u8 d i * 256 + read_u8 d (i + 1)

/-- Byte length of sample i: the big-endian word count at offset
20 + 30 i + 22 of the header, doubled. -/
def mod_sample_length (d : List ℕ) (i : ℕ) : ℕ := read_be16 d (20 + 30 * i + 22) * 2

/-- Song length byte (offset 20 + 31 * 30 = 950). -/
def mod_song_length (d : List ℕ) : ℕ := read_u8 d 950

/-- The 128-entry position table starting at offset 952. -/
def mod_positions (d : List ℕ) : List ℕ :=
  (List.range 128).map (fun i => read_u8 d (952 + i))

/-- Pattern count as the loader computes it: one more than the largest
pattern index among the first song_length positions. -/
def mod_num_patterns (d : List ℕ) : ℕ :=
  ((mod_positions d).take (mod_song_length d)).foldl max 0 + 1

/-- Total bytes the loader consumes: 1084 header bytes (title, 31
sample descriptors, song length, skip, position table, format tag),
then num_patterns * 64 rows * 4 channels * 4 bytes of pattern data,
then the raw sample payloads. -/
def mod_bytes_consumed (d : List ℕ) : ℕ :=
  1084 + mod_num_patterns d * ROWS_PER_PATTERN * 4 * 4 +
    (List.range 31).foldl (fun acc i => acc + mod_sample_length d i) 0

/-- Summary of a loaded module relevant to the load claims. -/
structure MODFile where
  song_length : ℕ
  num_patterns : ℕ
  bytes_consumed : ℕ
  deriving DecidableEq

/-- Translation of load_mod_embedded: the function parses
unconditionally and always succeeds (its only failure path is a failed
malloc, outside the modelled state); none of the parsed offsets is
checked against the length of the blob. -/
def load_mod_embedded (d : List ℕ) : Option MODFile :=
  some { song_length := mod_song_length d
         num_patterns := mod_num_patterns d
         bytes_consumed := mod_bytes_consumed d }

/-! ## Claim theorems for the ring buffer, timing, row effects and loader -/

/-- Claim C1: ring buffer contract. A producer write computes the next
write position modulo the capacity; if it equals the read index the
sample is dropped with buffer and both indices unchanged, otherwise the
sample is stored at the write index and the write index advances. A
consumer read returns no sample exactly when read index equals write
index, otherwise it returns the sample at the read index and advances
the read index modulo the capacity. Both operations are total
functions: no blocking, no error outcome. -/
theorem ring_buffer_contract (rb : RingBuffer) (s : ℤ) :
    (((rb.write_pos + 1) % MOD_BUFFER_SIZE = rb.read_pos → try_write rb s = rb) ∧
     ((rb.write_pos + 1) % MOD_BUFFER_SIZE ≠ rb.read_pos →
       try_write rb s = { buf := Function.update rb.buf rb.write_pos s,
                          write_pos := (rb.write_pos + 1) % MOD_BUFFER_SIZE,
                          read_pos := rb.read_pos })) ∧
    ((try_read rb).2 = none ↔ rb.read_pos = rb.write_pos) ∧
    (rb.read_pos ≠ rb.write_pos →
      try_read rb = ({ rb with read_pos := (rb.read_pos + 1) % MOD_BUFFER_SIZE },
                     some (rb.buf rb.read_pos))) := by
  refine ⟨⟨fun h => ?_, fun h => ?_⟩, ⟨fun h => ?_, fun h => ?_⟩, fun h => ?_⟩
  · simp [try_write, h]
  · simp [try_write, h]
  · by_contra hne
    simp [try_read, hne] at h
  · simp [try_read, h]
  · simp [try_read, h]

/-- Witness for C1: on the buffer with both indices 0 and zeroed
contents, a write stores sample 5 at index 0 and advances the write
index to 1. -/
theorem ring_buffer_contract_witness :
    try_write ⟨fun _ => 0, 0, 0⟩ 5 =
      { buf := Function.update (fun _ => (0 : ℤ)) 0 5, write_pos := 1 % MOD_BUFFER_SIZE,
        read_pos := 0 } :=
  (ring_buffer_contract ⟨fun _ => 0, 0, 0⟩ 5).1.2 (by decide)

/-- Claim C6: samples_per_tick equals (2500 * 22050) / (tempo * 1000)
rounded down; it is 441 at tempo 125 and 220 at tempo 250; and the
tempo-setting effect (0xF with parameter at least 0x20) sets the tempo
to the parameter and recomputes samples_per_tick accordingly. -/
theorem tempo_arithmetic (st : TrackerTiming) (param : ℕ) (h : 0x20 ≤ param) :
    calculate_tick_samples 125 = 441 ∧
    calculate_tick_samples 250 = 220 ∧
    (∀ tempo : ℕ, calculate_tick_samples tempo = (2500 * 22050) / (tempo * 1000)) ∧
    (apply_channel_effect st 0xF param).tempo = param ∧
    (apply_channel_effect st 0xF param).samples_per_tick = calculate_tick_samples param := by
  refine ⟨by decide, by decide, fun tempo => rfl, ?_, ?_⟩ <;>
    simp [apply_channel_effect, Nat.not_le.mpr (by omega : (0x1F : ℕ) < param), h]

/-- Witness for C6: the tempo-setting effect with parameter 0x20 (32
BPM) yields samples_per_tick 1722 on the initial state. -/
theorem tempo_arithmetic_witness :
    (apply_channel_effect initTrackerTiming 0xF 0x20).samples_per_tick =
      calculate_tick_samples 0x20 :=
  (tempo_arithmetic initTrackerTiming 0x20 (by decide)).2.2.2.2

/-- Claim C7 (code evaluation): the initial sequencer state sets tempo
125 but ticks_per_row 5, not 6; the first row therefore spans 5 ticks,
contradicting both the claim and the default of 6 stated in the
repository documentation. -/
theorem sequencer_defaults_code :
    initTrackerTiming.tempo = 125 ∧
    initTrackerTiming.ticks_per_row = 5 ∧
    initTrackerTiming.ticks_per_row ≠ 6 := by
  decide

/-- Claim C8 counterexample: a set-volume cell with parameter 100 on a
channel at volume 10 leaves the volume at 10; the claim demands the
clamped value 64. -/
theorem set_volume_counterexample :
    (process_note_channel (fun _ => 0) (fun _ => 0)
        { period := 0, sample_num := 0, volume := 10, sample_pos := 0,
          sample_increment := 0, effect := 0, param := 0 }
        { sample := 0, period := 0, effect := 0xC, param := 100 }).volume = 10 ∧
    (10 : ℕ) ≠ min 100 64 := by
  decide

/-- Claim C8 (amended): after a set-volume effect the channel volume
equals the parameter when the parameter is at most 64; a larger
parameter leaves the volume unchanged, that is, at the default volume
of the sample named in the same cell if there is one, else at the prior
channel volume. -/
theorem set_volume_effect (sample_volume incr_of : ℕ → ℕ)
    (ch : ChannelState) (note : ModNote) (h : note.effect = 0xC) :
    (process_note_channel sample_volume incr_of ch note).volume =
      if note.param ≤ 64 then note.param
      else if 0 < note.sample then sample_volume (note.sample - 1) else ch.volume := by
  by_cases hp : note.param ≤ 64 <;>
    by_cases hs : 0 < note.sample <;>
      by_cases hper : note.period = 0 <;>
        simp [process_note_channel, h, hp, hs, hper]

/-- Witness for C8: a set-volume effect with parameter 40 sets the
channel volume to 40. -/
theorem set_volume_effect_witness :
    (process_note_channel (fun _ => 0) (fun _ => 0)
        { period := 0, sample_num := 0, volume := 10, sample_pos := 0,
          sample_increment := 0, effect := 0, param := 0 }
        { sample := 0, period := 0, effect := 0xC, param := 40 }).volume =
      if (40 : ℕ) ≤ 64 then 40
      else if (0 : ℕ) < 0 then (fun _ => 0) (0 - 1) else 10 :=
  set_volume_effect (fun _ => 0) (fun _ => 0)
    { period := 0, sample_num := 0, volume := 10, sample_pos := 0,
      sample_increment := 0, effect := 0, param := 0 }
    { sample := 0, period := 0, effect := 0xC, param := 40 } rfl

/-- Claim C9 (code evaluation): on a zero-length blob the loader still
succeeds (song length 0, pattern count 1) and its pointer walk consumes
2108 bytes, all of them past the end of the blob; nothing fails fast
and tracker playback starts. -/
theorem load_mod_no_bounds_check :
    load_mod_embedded [] =
      some { song_length := 0, num_patterns := 1, bytes_consumed := 2108 } ∧
    ([] : List ℕ).length < mod_bytes_consumed [] := by
  decide

/-! ## Voice pool and ADSR envelopes (keyboard part of the sources)

The envelope timing constants live in keyboard_notes.h, which is not
part of the provided sources; their values are recorded in the
repository implementation log (Attack 5 ms = 220 samples, Decay 100 ms
= 4410 samples, Sustain 70 percent, Release 50 ms = 2205 samples at
44100 Hz). The float envelope level is modelled as an exact rational. -/

/-- ADSR envelope states (adsr_state_t). -/
inductive AdsrState where
  | idle
  | attack
  | decay
  | sustain
  | release
  deriving DecidableEq

/-- Attack duration in samples. -/
def ADSR_ATTACK_SAMPLES : ℕ := 220

/-- Decay duration in samples. -/
def ADSR_DECAY_SAMPLES : ℕ := 4410

/-- Release duration in samples. -/
def ADSR_RELEASE_SAMPLES : ℕ := 2205

/-- Sustain level fraction. -/
def ADSR_SUSTAIN_LEVEL : ℚ := 7 / 10

/-- Number of defined notes (NUM_NOTES in keyboard_notes.h: 13, the 8
white plus 5 black keys, equal to MAX_ACTIVE_NOTES in the source). -/
def NUM_NOTES : ℕ := 13

/-- Size of the voice pool. -/
def MAX_ACTIVE_NOTES : ℕ := 13

/-- Base frequency of the stored waveform cycle (261.63 Hz). -/
def WAVEFORM_BASE_FREQ : ℚ := 26163 / 100

/-- Length of the stored waveform cycle in samples. -/
def WAVEFORM_CYCLE_LENGTH : ℕ := 169

/-- One voice slot (the active_note_t struct). -/
structure ActiveNote where
  note_index : ℤ
  playback_position : ℚ
  playback_speed : ℚ
  adsr_state : AdsrState
  adsr_timer : ℕ
  adsr_level : ℚ
  key_held : Bool
  deriving DecidableEq

/-- Translation of update_adsr: one envelope step for one voice. Idle
pins the level to 0. Attack increments the timer, sets the level to
timer over attack samples, and on reaching the attack length moves to
Decay with timer 0 and level pinned to 1. Decay ramps the level from 1
toward the sustain level and on completion moves to Sustain with the
level pinned there. Sustain holds the sustain level and moves to
Release with timer 0 when the key is no longer held. Release ramps the
level from the sustain level toward 0 and on completion moves to Idle
with level 0 and the note index cleared to the free sentinel -1. -/
def update_adsr (v : ActiveNote) : ActiveNote :=
  match v.adsr_state with
  | AdsrState.idle => { v with adsr_level := 0 }
  | AdsrState.attack =>
      let t := v.adsr_timer + 1
      if ADSR_ATTACK_SAMPLES ≤ t then
        { v with adsr_state := AdsrState.decay, adsr_timer := 0, adsr_level := 1 }
      else
        { v with adsr_timer := t, adsr_level := (t : ℚ) / (ADSR_ATTACK_SAMPLES : ℚ) }
  | AdsrState.decay =>
      let t := v.adsr_timer + 1
      if ADSR_DECAY_SAMPLES ≤ t then
        { v with adsr_state := AdsrState.sustain, adsr_timer := t,
                 adsr_level := ADSR_SUSTAIN_LEVEL }
      else
        { v with adsr_timer := t,
                 adsr_level := 1 - (1 - ADSR_SUSTAIN_LEVEL) * ((t : ℚ) / (ADSR_DECAY_SAMPLES : ℚ)) }
  | AdsrState.sustain =>
      if v.key_held then { v with adsr_level := ADSR_SUSTAIN_LEVEL }
      else { v with adsr_level := ADSR_SUSTAIN_LEVEL, adsr_state := AdsrState.release,
                    adsr_timer := 0 }
  | AdsrState.release =>
      let t := v.adsr_timer + 1
      if ADSR_RELEASE_SAMPLES ≤ t then
        { v with adsr_state := AdsrState.idle, adsr_timer := t, adsr_level := 0,
                 note_index := -1 }
      else
        { v with adsr_timer := t,
                 adsr_level := ADSR_SUSTAIN_LEVEL * (1 - (t : ℚ) / (ADSR_RELEASE_SAMPLES : ℚ)) }

/-- The voice record written by start_note into the selected slot. The
per-note frequency table from keyboard_notes.h is abstracted by the
parameter freq_of. -/
def startedNote (freq_of : ℤ → ℚ) (note_index : ℤ) : ActiveNote :=
  { note_index := note_index
    playback_position := 0
    playback_speed := freq_of note_index / WAVEFORM_BASE_FREQ
    adsr_state := AdsrState.attack
    adsr_timer := 0
    adsr_level := 0
    key_held := true }

/-- Translation of the slot-search loop of start_note: walk the pool in
order; a slot whose note_index equals the target is taken immediately
(the break); otherwise the first Idle slot seen is remembered in the
accumulator and returned if no match is ever found. -/
def find_slot (target : ℤ) : List ActiveNote → Option ℕ → ℕ → Option ℕ
  | [], slot, _ => slot
  | v :: rest, slot, i =>
      if v.note_index = target then some i
      else
        match slot with
        | none =>
            if v.adsr_state = AdsrState.idle then find_slot target rest (some i) (i + 1)
            else find_slot target rest none (i + 1)
        | some s => find_slot target rest (some s) (i + 1)

/-- Translation of start_note: reject an out-of-range note index, then
search for a slot and, if one is found, overwrite it with the started
voice. -/
def start_note (freq_of : ℤ → ℚ) (note_index : ℤ) (pool : List ActiveNote) :
    List ActiveNote :=
  if note_index < 0 ∨ (NUM_NOTES : ℤ) ≤ note_index then pool
  else
    match find_slot note_index pool none 0 with
    | none => pool
    | some j => pool.set j (startedNote freq_of note_index)

/-- Per-slot body of the stop_note loop: clear key_held on a slot whose
note_index matches. -/
def stop_voice (note_index : ℤ) (v : ActiveNote) : ActiveNote :=
  if v.note_index = note_index then { v with key_held := false } else v

/-- Translation of stop_note: reject an out-of-range note index, then
clear key_held on every slot assigned to the note. -/
def stop_note (note_index : ℤ) (pool : List ActiveNote) : List ActiveNote :=
  if note_index < 0 ∨ (NUM_NOTES : ℤ) ≤ note_index then pool
  else pool.map (stop_voice note_index)

/-- Position advance of the mixing loop: add the playback speed and
wrap when the position exceeds the large bound. -/
def advance_position (v : ActiveNote) : ActiveNote :=
  if (WAVEFORM_CYCLE_LENGTH : ℚ) * 1000 ≤ v.playback_position + v.playback_speed then
    { v with playback_position :=
        v.playback_position + v.playback_speed - (WAVEFORM_CYCLE_LENGTH : ℚ) * 1000 }
  else { v with playback_position := v.playback_position + v.playback_speed }

/-- Per-voice mutation of one mixing-loop sample in audio_task: voices
in Idle are skipped; every other voice gets one envelope update and one
position advance. -/
def mixer_voice_update (v : ActiveNote) : ActiveNote :=
  if v.adsr_state = AdsrState.idle then v else advance_position (update_adsr v)

/-- One output sample of the mixing loop as it acts on the pool. -/
def mixer_step (pool : List ActiveNote) : List ActiveNote :=
  pool.map mixer_voice_update

/-- One voice slot as initialised in app_main: zeroed, note index -1,
state Idle. -/
def initNote : ActiveNote :=
  { note_index := -1
    playback_position := 0
    playback_speed := 0
    adsr_state := AdsrState.idle
    adsr_timer := 0
    adsr_level := 0
    key_held := false }

/-- The all-Idle initial pool. -/
def initPool : List ActiveNote := List.replicate MAX_ACTIVE_NOTES initNote

/-- Pool states reachable from the initial pool by any sequence of
start calls, stop calls and per-sample mixer updates. -/
inductive Reachable : List ActiveNote → Prop
  | init : Reachable initPool
  | start (pool : List ActiveNote) (freq_of : ℤ → ℚ) (n : ℤ) :
      Reachable pool → Reachable (start_note freq_of n pool)
  | stop (pool : List ActiveNote) (n : ℤ) :
      Reachable pool → Reachable (stop_note n pool)
  | mix (pool : List ActiveNote) :
      Reachable pool → Reachable (mixer_step pool)

/-- Inductive per-voice invariant: the envelope level is in [0,1], an
Idle voice has level 0 and a cleared note index, and a releasing voice
no longer has its key held. -/
def VoiceInv (v : ActiveNote) : Prop :=
  0 ≤ v.adsr_level ∧ v.adsr_level ≤ 1 ∧
  (v.adsr_state = AdsrState.idle → v.adsr_level = 0) ∧
  (v.adsr_state = AdsrState.release → v.key_held = false) ∧
  (v.adsr_state = AdsrState.idle → v.note_index = -1)

/-- Behaviour of update_adsr on an Idle voice. -/
lemma update_adsr_idle (v : ActiveNote) (h : v.adsr_state = AdsrState.idle) :
    update_adsr v = { v with adsr_level := 0 } := by
  simp [update_adsr, h]

/-- Behaviour of update_adsr when the attack phase completes. -/
lemma update_adsr_attack_done (v : ActiveNote) (h : v.adsr_state = AdsrState.attack)
    (ht : ADSR_ATTACK_SAMPLES ≤ v.adsr_timer + 1) :
    update_adsr v = { v with adsr_state := AdsrState.decay, adsr_timer := 0,
                             adsr_level := 1 } := by
  simp [update_adsr, h, ht]

/-- Behaviour of update_adsr during the attack ramp. -/
lemma update_adsr_attack_step (v : ActiveNote) (h : v.adsr_state = AdsrState.attack)
    (ht : v.adsr_timer + 1 < ADSR_ATTACK_SAMPLES) :
    update_adsr v =
      { v with
          adsr_timer := v.adsr_timer + 1,
          adsr_level := ((v.adsr_timer + 1 : ℕ) : ℚ) / (ADSR_ATTACK_SAMPLES : ℚ) } := by
  simp [update_adsr, h, not_le.mpr ht]

/-- Behaviour of update_adsr when the decay phase completes. -/
lemma update_adsr_decay_done (v : ActiveNote) (h : v.adsr_state = AdsrState.decay)
    (ht : ADSR_DECAY_SAMPLES ≤ v.adsr_timer + 1) :
    update_adsr v = { v with adsr_state := AdsrState.sustain,
                             adsr_timer := v.adsr_timer + 1,
                             adsr_level := ADSR_SUSTAIN_LEVEL } := by
  simp [update_adsr, h, ht]

/-- Behaviour of update_adsr during the decay ramp. -/
lemma update_adsr_decay_step (v : ActiveNote) (h : v.adsr_state = AdsrState.decay)
    (ht : v.adsr_timer + 1 < ADSR_DECAY_SAMPLES) :
    update_adsr v =
      { v with
          adsr_timer := v.adsr_timer + 1,
          adsr_level := 1 - (1 - ADSR_SUSTAIN_LEVEL) *
            (((v.adsr_timer + 1 : ℕ) : ℚ) / (ADSR_DECAY_SAMPLES : ℚ)) } := by
  simp [update_adsr, h, not_le.mpr ht]

/-- Behaviour of update_adsr on a sustained voice with the key held. -/
lemma update_adsr_sustain_held (v : ActiveNote) (h : v.adsr_state = AdsrState.sustain)
    (hk : v.key_held = true) :
    update_adsr v = { v with adsr_level := ADSR_SUSTAIN_LEVEL } := by
  simp [update_adsr, h, hk]

/-- Behaviour of update_adsr on a sustained voice whose key was
released: transition to Release with the timer reset. -/
lemma update_adsr_sustain_release (v : ActiveNote) (h : v.adsr_state = AdsrState.sustain)
    (hk : v.key_held = false) :
    update_adsr v = { v with adsr_level := ADSR_SUSTAIN_LEVEL,
                             adsr_state := AdsrState.release, adsr_timer := 0 } := by
  simp [update_adsr, h, hk]

/-- Behaviour of update_adsr when the release phase completes. -/
lemma update_adsr_release_done (v : ActiveNote) (h : v.adsr_state = AdsrState.release)
    (ht : ADSR_RELEASE_SAMPLES ≤ v.adsr_timer + 1) :
    update_adsr v = { v with adsr_state := AdsrState.idle,
                             adsr_timer := v.adsr_timer + 1, adsr_level := 0,
                             note_index := -1 } := by
  simp [update_adsr, h, ht]

/-- Behaviour of update_adsr during the release ramp. -/
lemma update_adsr_release_step (v : ActiveNote) (h : v.adsr_state = AdsrState.release)
    (ht : v.adsr_timer + 1 < ADSR_RELEASE_SAMPLES) :
    update_adsr v =
      { v with
          adsr_timer := v.adsr_timer + 1,
          adsr_level := ADSR_SUSTAIN_LEVEL *
            (1 - ((v.adsr_timer + 1 : ℕ) : ℚ) / (ADSR_RELEASE_SAMPLES : ℚ)) } := by
  simp [update_adsr, h, not_le.mpr ht]

/-- Bounds of the ratio of a bounded counter. -/
lemma div_bounds (t c : ℕ) (hc : 0 < c) (ht : t ≤ c) :
    0 ≤ (t : ℚ) / (c : ℚ) ∧ (t : ℚ) / (c : ℚ) ≤ 1 := by
  constructor
  · positivity
  · rw [div_le_one (by exact_mod_cast hc)]
    exact_mod_cast ht

/-- One envelope step preserves the voice invariant. -/
lemma voiceInv_update (v : ActiveNote) (h : VoiceInv v) : VoiceInv (update_adsr v) := by
  obtain ⟨h0, h1, h2, h3, h4⟩ := h
  cases hv : v.adsr_state with
  | idle =>
      rw [update_adsr_idle v hv]
      exact ⟨le_rfl, (by norm_num), fun _ => rfl,
        fun hr => (nomatch hv.symm.trans hr), fun _ => h4 hv⟩
  | attack =>
      rcases le_or_lt ADSR_ATTACK_SAMPLES (v.adsr_timer + 1) with ht | ht
      · rw [update_adsr_attack_done v hv ht]
        exact ⟨(by norm_num), le_rfl, fun hr => (nomatch hr), fun hr => (nomatch hr),
          fun hr => (nomatch hr)⟩
      · rw [update_adsr_attack_step v hv ht]
        obtain ⟨b0, b1⟩ := div_bounds (v.adsr_timer + 1) ADSR_ATTACK_SAMPLES
          (by norm_num [ADSR_ATTACK_SAMPLES]) (le_of_lt ht)
        exact ⟨b0, b1, fun hr => (nomatch hv.symm.trans hr),
          fun hr => (nomatch hv.symm.trans hr), fun hr => (nomatch hv.symm.trans hr)⟩
  | decay =>
      rcases le_or_lt ADSR_DECAY_SAMPLES (v.adsr_timer + 1) with ht | ht
      · rw [update_adsr_decay_done v hv ht]
        exact ⟨(by norm_num [ADSR_SUSTAIN_LEVEL]), (by norm_num [ADSR_SUSTAIN_LEVEL]),
          fun hr => (nomatch hr), fun hr => (nomatch hr), fun hr => (nomatch hr)⟩
      · rw [update_adsr_decay_step v hv ht]
        obtain ⟨b0, b1⟩ := div_bounds (v.adsr_timer + 1) ADSR_DECAY_SAMPLES
          (by norm_num [ADSR_DECAY_SAMPLES]) (le_of_lt ht)
        refine ⟨?_, ?_, fun hr => (nomatch hv.symm.trans hr),
          fun hr => (nomatch hv.symm.trans hr), fun hr => (nomatch hv.symm.trans hr)⟩
        · show (0 : ℚ) ≤ 1 - (1 - ADSR_SUSTAIN_LEVEL) *
            (((v.adsr_timer + 1 : ℕ) : ℚ) / (ADSR_DECAY_SAMPLES : ℚ))
          rw [ADSR_SUSTAIN_LEVEL]
          nlinarith [b0, b1]
        · show (1 : ℚ) - (1 - ADSR_SUSTAIN_LEVEL) *
            (((v.adsr_timer + 1 : ℕ) : ℚ) / (ADSR_DECAY_SAMPLES : ℚ)) ≤ 1
          rw [ADSR_SUSTAIN_LEVEL]
          nlinarith [b0, b1]
  | sustain =>
      cases hk : v.key_held with
      | true =>
          rw [update_adsr_sustain_held v hv hk]
          exact ⟨(by norm_num [ADSR_SUSTAIN_LEVEL]), (by norm_num [ADSR_SUSTAIN_LEVEL]),
            fun hr => (nomatch hv.symm.trans hr), fun hr => (nomatch hv.symm.trans hr),
            fun hr => (nomatch hv.symm.trans hr)⟩
      | false =>
          rw [update_adsr_sustain_release v hv hk]
          exact ⟨(by norm_num [ADSR_SUSTAIN_LEVEL]), (by norm_num [ADSR_SUSTAIN_LEVEL]),
            fun hr => (nomatch hr), fun _ => hk, fun hr => (nomatch hr)⟩
  | release =>
      rcases le_or_lt ADSR_RELEASE_SAMPLES (v.adsr_timer + 1) with ht | ht
      · rw [update_adsr_release_done v hv ht]
        exact ⟨le_rfl, (by norm_num), fun _ => rfl, fun hr => (nomatch hr), fun _ => rfl⟩
      · rw [update_adsr_release_step v hv ht]
        obtain ⟨b0, b1⟩ := div_bounds (v.adsr_timer + 1) ADSR_RELEASE_SAMPLES
          (by norm_num [ADSR_RELEASE_SAMPLES]) (le_of_lt ht)
        refine ⟨?_, ?_, fun hr => (nomatch hv.symm.trans hr),
          fun _ => h3 hv, fun hr => (nomatch hv.symm.trans hr)⟩
        · show (0 : ℚ) ≤ ADSR_SUSTAIN_LEVEL *
            (1 - ((v.adsr_timer + 1 : ℕ) : ℚ) / (ADSR_RELEASE_SAMPLES : ℚ))
          rw [ADSR_SUSTAIN_LEVEL]
          nlinarith [b0, b1]
        · show ADSR_SUSTAIN_LEVEL *
            (1 - ((v.adsr_timer + 1 : ℕ) : ℚ) / (ADSR_RELEASE_SAMPLES : ℚ)) ≤ 1
          rw [ADSR_SUSTAIN_LEVEL]
          nlinarith [b0, b1]

/-- The started voice satisfies the invariant. -/
lemma voiceInv_started (freq_of : ℤ → ℚ) (n : ℤ) : VoiceInv (startedNote freq_of n) :=
  ⟨le_rfl, (by norm_num [startedNote]), fun hr => (nomatch hr), fun hr => (nomatch hr),
    fun hr => (nomatch hr)⟩

/-- Clearing key_held preserves the invariant. -/
lemma voiceInv_stop_voice (n : ℤ) (v : ActiveNote) (h : VoiceInv v) :
    VoiceInv (stop_voice n v) := by
  obtain ⟨h0, h1, h2, h3, h4⟩ := h
  unfold stop_voice
  split
  · exact ⟨h0, h1, h2, fun _ => rfl, h4⟩
  · exact ⟨h0, h1, h2, h3, h4⟩

/-- The position advance touches no envelope field. -/
lemma voiceInv_advance (v : ActiveNote) (h : VoiceInv v) : VoiceInv (advance_position v) := by
  obtain ⟨h0, h1, h2, h3, h4⟩ := h
  unfold advance_position
  split
  · exact ⟨h0, h1, h2, h3, h4⟩
  · exact ⟨h0, h1, h2, h3, h4⟩

/-- The initial voice satisfies the invariant. -/
lemma voiceInv_init : VoiceInv initNote :=
  ⟨le_rfl, (by norm_num [initNote]), fun _ => rfl, fun hr => (nomatch hr), fun _ => rfl⟩

/-- A list map that fixes every element is the identity. -/
lemma map_eq_self_of_mem {α : Type} (l : List α) (f : α → α) (h : ∀ x ∈ l, f x = x) :
    l.map f = l := by
  induction l with
  | nil => rfl
  | cons a t ih =>
      simp only [List.map_cons]
      rw [h a (List.mem_cons_self a t), ih (fun x hx => h x (List.mem_cons_of_mem a hx))]

/-- Every voice of every reachable pool satisfies the invariant. -/
lemma reachable_voiceInv (p : List ActiveNote) (h : Reachable p) :
    ∀ v ∈ p, VoiceInv v := by
  induction h with
  | init =>
      intro v hv
      rw [List.eq_of_mem_replicate hv]
      exact voiceInv_init
  | start pool freq_of n _ ih =>
      intro v hv
      unfold start_note at hv
      split at hv
      · exact ih v hv
      · split at hv
        · exact ih v hv
        · rcases List.mem_or_eq_of_mem_set hv with h' | h'
          · exact ih v h'
          · rw [h']
            exact voiceInv_started freq_of n
  | stop pool n _ ih =>
      intro v hv
      unfold stop_note at hv
      split at hv
      · exact ih v hv
      · obtain ⟨w, hw, rfl⟩ := List.mem_map.mp hv
        exact voiceInv_stop_voice n w (ih w hw)
  | mix pool _ ih =>
      intro v hv
      obtain ⟨w, hw, rfl⟩ := List.mem_map.mp hv
      unfold mixer_voice_update
      split
      · exact ih w hw
      · exact voiceInv_advance _ (voiceInv_update w (ih w hw))

/-- Claim C4: in every pool state reachable by any sequence of start
calls, stop calls and per-sample envelope updates from the initial
all-Idle pool, every voice has an envelope level between 0 and 1, and
every Idle voice has envelope level exactly 0. -/
theorem envelope_level_invariant (p : List ActiveNote) (h : Reachable p) :
    ∀ v ∈ p, 0 ≤ v.adsr_level ∧ v.adsr_level ≤ 1 ∧
      (v.adsr_state = AdsrState.idle → v.adsr_level = 0) := by
  intro v hv
  obtain ⟨h0, h1, h2, _, _⟩ := reachable_voiceInv p h v hv
  exact ⟨h0, h1, h2⟩

/-- Witness for C4: the invariant evaluated on the initial pool and its
first voice. -/
theorem envelope_level_invariant_witness :
    0 ≤ initNote.adsr_level ∧ initNote.adsr_level ≤ 1 ∧
      (initNote.adsr_state = AdsrState.idle → initNote.adsr_level = 0) :=
  envelope_level_invariant initPool Reachable.init initNote
    (by simp [initPool, MAX_ACTIVE_NOTES, List.mem_replicate])

/-- Claim C3: release completion. A sustained voice whose key is no
longer held enters Release with timer 0 at the sustain level; while the
release timer stays below release_samples the level follows the linear
ramp sustain_level * (1 - timer / release_samples); on the update where
the timer reaches release_samples the voice becomes Idle with level 0
and its note index cleared to the free sentinel -1. Calling stop for a
note whose voices are all already Idle or already releasing changes no
voice state of a reachable pool. -/
theorem release_completion (v : ActiveNote) (p : List ActiveNote) (n : ℤ)
    (hp : Reachable p)
    (hrel : ∀ w ∈ p, w.note_index = n →
      w.adsr_state = AdsrState.idle ∨ w.adsr_state = AdsrState.release) :
    (v.adsr_state = AdsrState.sustain → v.key_held = false →
      update_adsr v = { v with adsr_level := ADSR_SUSTAIN_LEVEL,
                               adsr_state := AdsrState.release, adsr_timer := 0 }) ∧
    (v.adsr_state = AdsrState.release → v.adsr_timer + 1 < ADSR_RELEASE_SAMPLES →
      update_adsr v =
        { v with
            adsr_timer := v.adsr_timer + 1,
            adsr_level := ADSR_SUSTAIN_LEVEL *
              (1 - ((v.adsr_timer + 1 : ℕ) : ℚ) / (ADSR_RELEASE_SAMPLES : ℚ)) }) ∧
    (v.adsr_state = AdsrState.release → ADSR_RELEASE_SAMPLES ≤ v.adsr_timer + 1 →
      update_adsr v = { v with adsr_state := AdsrState.idle,
                               adsr_timer := v.adsr_timer + 1, adsr_level := 0,
                               note_index := -1 }) ∧
    stop_note n p = p := by
  refine ⟨fun hs hk => update_adsr_sustain_release v hs hk,
    fun hs ht => update_adsr_release_step v hs ht,
    fun hs ht => update_adsr_release_done v hs ht, ?_⟩
  unfold stop_note
  split
  · rfl
  · rename_i hg
    apply map_eq_self_of_mem
    intro w hw
    unfold stop_voice
    split
    · rename_i hm
      rcases hrel w hw hm with hidle | hrelease
      · have h4 := (reachable_voiceInv p hp w hw).2.2.2.2 hidle
        rw [h4] at hm
        exfalso
        push_neg at hg
        have := hg.1
        omega
      · have hk := (reachable_voiceInv p hp w hw).2.2.2.1 hrelease
        obtain ⟨a, b, c, st, t, l, k⟩ := w
        simp only at hk
        rw [hk]
    · rfl

/-- Witness for C3: stopping note 0 on the initial pool (all voices
Idle) changes nothing. -/
theorem release_completion_witness : stop_note 0 initPool = initPool :=
  (release_completion initNote initPool 0 Reachable.init (by decide)).2.2.2

/-- First index of a list element satisfying a predicate, counted from
the head. -/
def firstIdx {α : Type} (q : α → Prop) [DecidablePred q] : List α → Option ℕ
  | [] => none
  | a :: l => if q a then some 0 else (firstIdx q l).map (· + 1)

/-- The slot search with a non-empty accumulator returns the first
matching index (offset by the running counter) and otherwise the
accumulator. -/
lemma find_slot_acc_some (target : ℤ) (l : List ActiveNote) (s : ℕ) :
    ∀ i : ℕ, find_slot target l (some s) i =
      match firstIdx (fun v => v.note_index = target) l with
      | some j => some (i + j)
      | none => some s := by
  induction l with
  | nil => intro i; rfl
  | cons v rest ih =>
      intro i
      by_cases hm : v.note_index = target
      · simp [find_slot, firstIdx, hm]
      · simp only [find_slot, if_neg hm]
        rw [ih (i + 1)]
        simp only [firstIdx, if_neg hm]
        cases hf : firstIdx (fun v => v.note_index = target) rest <;> simp [hf] <;> omega

/-- The slot search with an empty accumulator returns the first
matching index when one exists, else the first Idle index. -/
lemma find_slot_none_eq (target : ℤ) (l : List ActiveNote) :
    ∀ i : ℕ, find_slot target l none i =
      match firstIdx (fun v => v.note_index = target) l with
      | some j => some (i + j)
      | none => (firstIdx (fun v : ActiveNote => v.adsr_state = AdsrState.idle) l).map
          (fun j => i + j) := by
  induction l with
  | nil => intro i; rfl
  | cons v rest ih =>
      intro i
      by_cases hm : v.note_index = target
      · simp [find_slot, firstIdx, hm]
      · by_cases hi : v.adsr_state = AdsrState.idle
        · simp only [find_slot, if_neg hm, if_pos hi]
          rw [find_slot_acc_some target rest i (i + 1)]
          simp only [firstIdx, if_neg hm, if_pos hi]
          cases hf : firstIdx (fun v => v.note_index = target) rest <;> simp [hf] <;> omega
        · simp only [find_slot, if_neg hm, if_neg hi]
          rw [ih (i + 1)]
          simp only [firstIdx, if_neg hm, if_neg hi]
          cases hf : firstIdx (fun v => v.note_index = target) rest
          · cases hg : firstIdx (fun v : ActiveNote => v.adsr_state = AdsrState.idle) rest <;>
              simp [hf, hg] <;> omega
          · simp [hf] <;> omega

/-- Claim C5: voice start contract. For every valid note index, start
selects the slot already assigned to that note index when one exists,
otherwise the first Idle slot in pool order; when neither exists the
pool is unchanged. The selected slot is overwritten with position 0,
speed equal to the target frequency divided by the waveform base
frequency, state Attack, envelope timer 0, envelope level 0 and
key_held true. -/
theorem start_note_selection (freq_of : ℤ → ℚ) (n : ℤ) (p : List ActiveNote)
    (h0 : 0 ≤ n) (h1 : n < (NUM_NOTES : ℤ)) :
    start_note freq_of n p =
      match firstIdx (fun v => v.note_index = n) p with
      | some j =>
          p.set j { note_index := n, playback_position := 0,
                    playback_speed := freq_of n / WAVEFORM_BASE_FREQ,
                    adsr_state := AdsrState.attack, adsr_timer := 0, adsr_level := 0,
                    key_held := true }
      | none =>
          match firstIdx (fun v : ActiveNote => v.adsr_state = AdsrState.idle) p with
          | some j =>
              p.set j { note_index := n, playback_position := 0,
                        playback_speed := freq_of n / WAVEFORM_BASE_FREQ,
                        adsr_state := AdsrState.attack, adsr_timer := 0, adsr_level := 0,
                        key_held := true }
          | none => p := by
  have hg : ¬ (n < 0 ∨ (NUM_NOTES : ℤ) ≤ n) := by omega
  unfold start_note
  rw [if_neg hg, find_slot_none_eq n p 0]
  cases hf : firstIdx (fun v => v.note_index = n) p
  · cases hi : firstIdx (fun v : ActiveNote => v.adsr_state = AdsrState.idle) p <;>
      simp [hf, hi, startedNote]
  · simp [hf, startedNote]

/-- Witness for C5: starting note 0 on the initial pool claims the
first slot. -/
theorem start_note_selection_witness :
    start_note (fun _ => WAVEFORM_BASE_FREQ) 0 initPool =
      match firstIdx (fun v => v.note_index = (0 : ℤ)) initPool with
      | some j =>
          initPool.set j { note_index := 0, playback_position := 0,
                           playback_speed := WAVEFORM_BASE_FREQ / WAVEFORM_BASE_FREQ,
                           adsr_state := AdsrState.attack, adsr_timer := 0,
                           adsr_level := 0, key_held := true }
      | none =>
          match firstIdx (fun v : ActiveNote => v.adsr_state = AdsrState.idle) initPool with
          | some j =>
              initPool.set j { note_index := 0, playback_position := 0,
                               playback_speed := WAVEFORM_BASE_FREQ / WAVEFORM_BASE_FREQ,
                               adsr_state := AdsrState.attack, adsr_timer := 0,
                               adsr_level := 0, key_held := true }
          | none => initPool :=
  start_note_selection (fun _ => WAVEFORM_BASE_FREQ) 0 initPool le_rfl
    (by norm_num [NUM_NOTES])

/-- Claim C10: calling start or stop with a note index below 0 or at or
above the number of defined notes leaves every voice slot unchanged. -/
theorem invalid_note_index_noop (freq_of : ℤ → ℚ) (n : ℤ) (p : List ActiveNote)
    (h : n < 0 ∨ (NUM_NOTES : ℤ) ≤ n) :
    start_note freq_of n p = p ∧ stop_note n p = p := by
  refine ⟨?_, ?_⟩
  · unfold start_note
    rw [if_pos h]
  · unfold stop_note
    rw [if_pos h]

/-- Witness for C10: note index 13 (one above the last valid index) is
a no-op on the initial pool. -/
theorem invalid_note_index_noop_witness :
    start_note (fun _ => 0) 13 initPool = initPool ∧
    stop_note 13 initPool = initPool :=
  invalid_note_index_noop (fun _ => 0) 13 initPool (Or.inr (by norm_num [NUM_NOTES]))

/-! ## Mixer normalization (keyboard audio_task)

The smoothed normalization gain is a C float; it is modelled over the
reals, where the target involves a square root. In the source, when at
least one voice is active the gain moves toward 1 / sqrt(active_count)
by a fixed fraction alpha = 0.01 per sample; when no voice is active
the gain is reset directly to 1.0. -/

/-- Translation of the normalization block of the keyboard audio_task:
one per-sample update of current_normalization as a function of the
number of non-Idle voices. -/
noncomputable def mixer_gain_update (active_count : ℕ) (g : ℝ) : ℝ :=
  if 0 < active_count then
    g + (1 / 100) * (1 / Real.sqrt active_count - g)
  else 1

/-- Modelled from the spec: the per-sample gain update as the claim
states it, with target gain 1 when active_count is 0 and the smoothing
formula applied in every case. -/
noncomputable def spec_gain_update (active_count : ℕ) (g : ℝ) : ℝ :=
  g + (1 / 100) * ((if 0 < active_count then 1 / Real.sqrt active_count else 1) - g)

/-- The gain after n consecutive samples at a fixed active count. -/
noncomputable def gain_iter (active_count : ℕ) : ℕ → ℝ → ℝ
  | 0, g => g
  | n + 1, g => gain_iter active_count n (mixer_gain_update active_count g)

/-- Claim C2 counterexample: at active_count 0 and current gain 0 the
code resets the gain to 1, while the update formula of the claim
(smoothing toward target 1) would give 1/100. -/
theorem normalization_reset_counterexample :
    mixer_gain_update 0 0 ≠ spec_gain_update 0 0 := by
  have h1 : mixer_gain_update 0 0 = 1 := by simp [mixer_gain_update]
  have h2 : spec_gain_update 0 0 = 1 / 100 := by
    simp [spec_gain_update]
  rw [h1, h2]
  norm_num

/-- Distance to the target contracts by the factor 99/100 each sample. -/
lemma gain_iter_sub (k : ℕ) (hk : 0 < k) (n : ℕ) :
    ∀ g : ℝ, gain_iter k n g - 1 / Real.sqrt k =
      (99 / 100) ^ n * (g - 1 / Real.sqrt k) := by
  induction n with
  | zero => intro g; simp [gain_iter]
  | succ n ih =>
      intro g
      have hstep : gain_iter k (n + 1) g = gain_iter k n (mixer_gain_update k g) := rfl
      rw [hstep, ih (mixer_gain_update k g)]
      have hupd : mixer_gain_update k g - 1 / Real.sqrt k
          = (99 / 100) * (g - 1 / Real.sqrt k) := by
        rw [mixer_gain_update, if_pos hk]
        ring
      rw [hupd]
      ring

/-- Square-root bounds for the active-voice counts of this program. -/
lemma sqrt_k_bounds (k : ℕ) (hk1 : 1 ≤ k) (hk13 : k ≤ 13) :
    1 ≤ Real.sqrt k ∧ Real.sqrt k ≤ 4 := by
  constructor
  · rw [show (1 : ℝ) = Real.sqrt 1 by simp]
    exact Real.sqrt_le_sqrt (by exact_mod_cast hk1)
  · have h16 : (4 : ℝ) = Real.sqrt 16 := by
      rw [show (16 : ℝ) = 4 ^ 2 by norm_num]
      exact (Real.sqrt_sq (by norm_num)).symm
    rw [h16]
    exact Real.sqrt_le_sqrt (by exact_mod_cast le_trans hk13 (by norm_num))

/-- The contraction factor to the 1000th power is below 1/400. -/
lemma gain_pow_bound : ((99 : ℝ) / 100) ^ 1000 ≤ 1 / 400 := by
  rw [div_pow, div_le_div_iff (by positivity) (by norm_num)]
  have h : (99 : ℕ) ^ 1000 * 400 ≤ 1 * 100 ^ 1000 := by norm_num
  exact_mod_cast h

/-- Claim C2 (amended): with at least one active voice the code updates
the gain by current += (1/100) * (1/sqrt(active_count) - current); with
no active voice it resets the gain directly to 1.0 (rather than
smoothing toward target 1 as the claim words it); consequently, holding
the active count constant at k between 1 and 13 for at least 1000
samples from any starting gain in [0, 1] leaves the gain within 1
percent of 1/sqrt(k). -/
theorem normalization_smoothing (k n : ℕ) (g g0 : ℝ)
    (hk : 1 ≤ k) (hk13 : k ≤ 13) (hn : 1000 ≤ n) (hg0 : 0 ≤ g0) (hg1 : g0 ≤ 1) :
    mixer_gain_update k g = g + (1 / 100) * (1 / Real.sqrt k - g) ∧
    mixer_gain_update 0 g = 1 ∧
    |gain_iter k n g0 - 1 / Real.sqrt k| ≤ (1 / 100) * (1 / Real.sqrt k) := by
  obtain ⟨hs1, hs4⟩ := sqrt_k_bounds k hk hk13
  have hspos : (0 : ℝ) < Real.sqrt k := lt_of_lt_of_le one_pos hs1
  have ht1 : 1 / Real.sqrt k ≤ 1 := by
    rw [div_le_one hspos]
    exact hs1
  have ht4 : 1 / 4 ≤ 1 / Real.sqrt k := one_div_le_one_div_of_le hspos hs4
  have htpos : 0 < 1 / Real.sqrt k := by positivity
  refine ⟨by rw [mixer_gain_update, if_pos (by omega : 0 < k)],
    by simp [mixer_gain_update], ?_⟩
  rw [gain_iter_sub k (by omega) n g0, abs_mul, abs_pow]
  have habs : |(99 : ℝ) / 100| = 99 / 100 := by norm_num
  rw [habs]
  have hd : |g0 - 1 / Real.sqrt k| ≤ 1 := by
    rw [abs_le]
    constructor <;> nlinarith [htpos, ht1, hg0, hg1]
  have hpowmono : ((99 : ℝ) / 100) ^ n ≤ ((99 : ℝ) / 100) ^ 1000 :=
    pow_le_pow_of_le_one (by norm_num) (by norm_num) hn
  calc ((99 : ℝ) / 100) ^ n * |g0 - 1 / Real.sqrt k|
      ≤ ((99 : ℝ) / 100) ^ 1000 * 1 :=
        mul_le_mul hpowmono hd (abs_nonneg _) (by positivity)
    _ ≤ 1 / 400 := by
        rw [mul_one]
        exact gain_pow_bound
    _ ≤ (1 / 100) * (1 / Real.sqrt k) := by nlinarith [ht4]

/-- Witness for C2: one active voice held for exactly 1000 samples from
gain 1 ends within 1 percent of the target 1. -/
theorem normalization_smoothing_witness :
    mixer_gain_update 1 0 = 0 + (1 / 100) * (1 / Real.sqrt ((1 : ℕ) : ℝ) - 0) ∧
    mixer_gain_update 0 0 = 1 ∧
    |gain_iter 1 1000 1 - 1 / Real.sqrt ((1 : ℕ) : ℝ)| ≤
      (1 / 100) * (1 / Real.sqrt ((1 : ℕ) : ℝ)) :=
  normalization_smoothing 1 1000 0 1 le_rfl (by norm_num) le_rfl (by norm_num) le_rfl

end MusicalKeyboard
